import Mathlib

/-!
Verification of the lsim digital-logic simulator sources.

The development shallowly embeds the code of the repository:
machine integers become `Nat` with explicit `% 2^w` where overflow
matters, the C++ containers become association lists, and the
stateful mutation of `CircuitDescription` becomes explicit state
passing.  Parts of the simulator core whose implementation files are
not part of the source snapshot (gate evaluation, the runtime node
resolver, the scheduler) are modelled from the specification and
marked as such in their doc comments.
-/

namespace LSim

/-! ## Value domain (src/basic.h) -/

/-- Enumerator `VALUE_FALSE = 0` of `enum Value` in basic.h. -/
def VALUE_FALSE : Nat := 0

/-- Enumerator `VALUE_TRUE = 1` of `enum Value` in basic.h. -/
def VALUE_TRUE : Nat := 1

/-- Enumerator `VALUE_UNDEFINED = 2` of `enum Value` in basic.h. -/
def VALUE_UNDEFINED : Nat := 2

/-- The list of enumerators declared by `enum Value` in basic.h
(lines 20-24), in declaration order. -/
def valueEnumerators : List Nat := [VALUE_FALSE, VALUE_TRUE, VALUE_UNDEFINED]

/-- Embedding of `negate_value` from basic.h: `VALUE_TRUE` maps to
`VALUE_FALSE`, `VALUE_FALSE` maps to `VALUE_TRUE`, and every other
representation value falls into the `else` branch and maps to
`VALUE_UNDEFINED`. -/
def negate_value (input : Nat) : Nat :=
  if input = VALUE_TRUE then VALUE_FALSE
  else if input = VALUE_FALSE then VALUE_TRUE
  else VALUE_UNDEFINED

/-! ## GUI colour and label tables (src/gui/colors.h, src/gui/main_gui.cpp) -/

/-- Embedding of ImGui's `IM_COL32(R,G,B,A)` packing with the default
shifts (R at bit 0, G at bit 8, B at bit 16, A at bit 24). -/
def im_col32 (r g b a : Nat) : Nat :=
  (r % 256) + (g % 256) * 2 ^ 8 + (b % 256) * 2 ^ 16 + (a % 256) * 2 ^ 24

/-- `COLOR_CONNECTION_FALSE` from colors.h. -/
def COLOR_CONNECTION_FALSE : Nat := im_col32 0 75 0 255

/-- `COLOR_CONNECTION_TRUE` from colors.h. -/
def COLOR_CONNECTION_TRUE : Nat := im_col32 0 175 0 255

/-- `COLOR_CONNECTION_UNDEFINED` from colors.h. -/
def COLOR_CONNECTION_UNDEFINED : Nat := im_col32 120 120 120 255

/-- `COLOR_CONNECTION_ERROR` from colors.h. -/
def COLOR_CONNECTION_ERROR : Nat := im_col32 200 0 0 255

/-- The `COLOR_CONNECTION` array from colors.h, indexed by a node's
resolved value when the GUI renders a wire. -/
def COLOR_CONNECTION : List Nat :=
  [COLOR_CONNECTION_FALSE, COLOR_CONNECTION_TRUE,
   COLOR_CONNECTION_UNDEFINED, COLOR_CONNECTION_ERROR]

/-- The `value_labels` array of main_gui.cpp (line 27), used with a
four-entry combo box whose selected index is cast back to `Value`. -/
def value_labels : List String := ["False", "True", "Undefined", "Error"]

/-! ## Circuit description (circuit_description.cpp / circuit_description.h) -/

/-- Component-type tags.  Modelled from the spec: `sim_types.h` is not
part of the source snapshot; the constructors mirror the
`COMPONENT_...` constants used by circuit_description.cpp and
main_gui.cpp (one per component kind of the spec's data model). -/
inductive ComponentType where
  | connector_in
  | connector_out
  | constant
  | pull_resistor
  | buffer
  | tristate_buffer
  | and_gate
  | or_gate
  | not_gate
  | nand_gate
  | nor_gate
  | xor_gate
  | xnor_gate
  | sub_circuit
deriving DecidableEq, Repr

/-- Typed property values.  Modelled from the spec: `property.h` is not
part of the source snapshot; the spec's data model maps named
properties to typed values (string / integer / boolean). -/
inductive PropValue where
  | str (s : String)
  | int (i : Int)
  | bool (b : Bool)
deriving DecidableEq, Repr

/-- `Property::value_as_integer`.  Modelled from the spec for the
mismatched-type cases (only same-typed accesses occur in the code under
verification): an integer-valued property yields its integer. -/
def PropValue.value_as_integer : PropValue → Int
  | .int i => i
  | .bool b => if b then 1 else 0
  | .str _ => 0

/-- `Property::value_as_string`, modelled like `value_as_integer`. -/
def PropValue.value_as_string : PropValue → String
  | .str s => s
  | .int i => toString i
  | .bool b => toString b

/-- `Property::value_as_boolean`, modelled like `value_as_integer`. -/
def PropValue.value_as_boolean : PropValue → Bool
  | .bool b => b
  | .int i => i ≠ 0
  | .str _ => false

/-- Insertion into an `unordered_map` keyed by strings
(`m_properties[prop->key()] = ...`): the newest binding shadows any
older one. -/
def prop_insert (m : List (String × PropValue)) (k : String) (v : PropValue) :
    List (String × PropValue) :=
  (k, v) :: m.filter (fun kv => kv.1 ≠ k)

/-- Lookup in the property map (`Component::property`): `none` embeds
the `nullptr` result. -/
def prop_find (m : List (String × PropValue)) (k : String) : Option PropValue :=
  (m.find? (fun kv => kv.1 = k)).map (·.2)

/-- In-place update through the pointer returned by
`Component::property` (`property(key)->value(v)`). -/
def prop_update (m : List (String × PropValue)) (k : String) (v : PropValue) :
    List (String × PropValue) :=
  m.map (fun kv => if kv.1 = k then (k, v) else kv)

/-- Embedding of `lsim::Component` (circuit_description.h): the id is a
`uint32_t`, the three pin counts are `size_t`, properties are the
string-keyed map, position and angle are the editor-facing placement
fields. -/
structure Component where
  id : Nat
  type : ComponentType
  inputs : Nat
  outputs : Nat
  controls : Nat
  properties : List (String × PropValue)
  position : Int × Int
  angle : Int
deriving DecidableEq, Repr

/-- `Component::num_pins` counterpart: the size of the local pin-index
space (`m_inputs + m_outputs + m_controls`). -/
def Component.total_pins (c : Component) : Nat :=
  c.inputs + c.outputs + c.controls

/-- `Component::pin_id` (circuit_description.cpp lines 87-90):
`(static_cast<pin_id_t>(m_id) << 32) | (index & 0xffffffff)` on 64-bit
unsigned arithmetic, with `m_id` a `uint32_t`. -/
def Component.pin_id (c : Component) (index : Nat) : Nat :=
  (c.id % 2 ^ 32) * 2 ^ 32 + index % 2 ^ 32

/-- `Component::input_pin_id`: `pin_id(index)` for `index < m_inputs`. -/
def Component.input_pin_id (c : Component) (index : Nat) : Nat :=
  c.pin_id index

/-- `Component::output_pin_id`: `pin_id(m_inputs + index)`. -/
def Component.output_pin_id (c : Component) (index : Nat) : Nat :=
  c.pin_id (c.inputs + index)

/-- `Component::control_pin_id`: `pin_id(m_inputs + m_outputs + index)`. -/
def Component.control_pin_id (c : Component) (index : Nat) : Nat :=
  c.pin_id (c.inputs + c.outputs + index)

/-- `Component::add_property`. -/
def Component.add_property (c : Component) (k : String) (v : PropValue) :
    Component :=
  { c with properties := prop_insert c.properties k v }

/-- `Component::property` (pointer result embedded as `Option`). -/
def Component.property (c : Component) (k : String) : Option PropValue :=
  prop_find c.properties k

/-- Setter through `Component::property`'s pointer. -/
def Component.set_property (c : Component) (k : String) (v : PropValue) :
    Component :=
  { c with properties := prop_update c.properties k v }

/-- `Component::property_value(key, int64_t def_value)`
(circuit_description.cpp lines 125-128). -/
def Component.property_value_int (c : Component) (k : String) (dflt : Int) :
    Int :=
  match c.property k with
  | some p => p.value_as_integer
  | none => dflt

/-- `Component::property_value(key, const char *def_value)`. -/
def Component.property_value_str (c : Component) (k : String) (dflt : String) :
    String :=
  match c.property k with
  | some p => p.value_as_string
  | none => dflt

/-- `Component::property_value(key, bool def_value)`. -/
def Component.property_value_bool (c : Component) (k : String) (dflt : Bool) :
    Bool :=
  match c.property k with
  | some p => p.value_as_boolean
  | none => dflt

/-- `Component::set_position`. -/
def Component.set_position (c : Component) (pos : Int × Int) : Component :=
  { c with position := pos }

/-- `Component::set_angle`. -/
def Component.set_angle (c : Component) (angle : Int) : Component :=
  { c with angle := angle }

/-- `component_id_from_pin_id` (circuit_description.h): `pin_id >> 32`
truncated to `uint32_t`. -/
def component_id_from_pin_id (pin : Nat) : Nat :=
  pin / 2 ^ 32 % 2 ^ 32

/-- `pin_index_from_pin_id` (circuit_description.h):
`pin_id & 0xffffffff`. -/
def pin_index_from_pin_id (pin : Nat) : Nat :=
  pin % 2 ^ 32

/-- Embedding of `lsim::Wire`: an id (`uint32_t`) and the ordered list
of member pin ids. -/
structure Wire where
  id : Nat
  pins : List Nat
deriving DecidableEq, Repr

/-- `Wire::add_pin` (`m_pins.push_back(pin)`). -/
def Wire.add_pin (w : Wire) (pin : Nat) : Wire :=
  { w with pins := w.pins ++ [pin] }

/-- `Wire::num_pins`. -/
def Wire.num_pins (w : Wire) : Nat := w.pins.length

/-- Embedding of `lsim::CircuitDescription`: the two id counters are
`uint32_t`, the two owning maps become association lists where the
newest binding shadows older ones (matching `unordered_map` insertion
through `operator[]`). -/
structure CircuitDescription where
  name : String
  component_id : Nat
  components : List (Nat × Component)
  wire_id : Nat
  wires : List (Nat × Wire)
deriving DecidableEq, Repr

/-- The `CircuitDescription` constructor: empty maps, both id counters
start at 0. -/
def CircuitDescription.mk_empty (name : String) : CircuitDescription :=
  ⟨name, 0, [], 0, []⟩

/-- Lookup in an id-keyed `unordered_map`. -/
def alist_find (m : List (Nat × α)) (k : Nat) : Option α :=
  (m.find? (fun kv => kv.1 = k)).map (·.2)

/-- The default properties `CircuitDescription::create_component`
attaches right after constructing a component
(circuit_description.cpp lines 177-186). -/
def default_properties (type : ComponentType) (id : Nat) :
    List (String × PropValue) :=
  match type with
  | .connector_in =>
      prop_insert (prop_insert [] "name" (.str ("c#" ++ toString id)))
        "tri_state" (.bool false)
  | .connector_out =>
      prop_insert (prop_insert [] "name" (.str ("c#" ++ toString id)))
        "tri_state" (.bool false)
  | .constant => prop_insert [] "value" (.int (Int.ofNat VALUE_FALSE))
  | .pull_resistor => prop_insert [] "pull_to" (.int (Int.ofNat VALUE_FALSE))
  | .sub_circuit => prop_insert [] "circuit" (.str "unknown")
  | _ => []

/-- `CircuitDescription::create_component` (circuit_description.cpp
lines 172-189): builds a component with id `m_component_id++` (a
`uint32_t`, hence the `% 2^32` on the increment), stores it in the
component map and returns it. -/
def CircuitDescription.create_component (d : CircuitDescription)
    (type : ComponentType) (input_pins output_pins control_pins : Nat) :
    Component × CircuitDescription :=
  let comp : Component :=
    { id := d.component_id, type := type, inputs := input_pins,
      outputs := output_pins, controls := control_pins,
      properties := default_properties type d.component_id,
      position := (0, 0), angle := 0 }
  (comp,
   { d with
       component_id := (d.component_id + 1) % 2 ^ 32,
       components := (comp.id, comp) :: d.components })

/-- `CircuitDescription::component_by_id` (circuit_description.cpp
lines 191-198): map lookup, `nullptr` embedded as `none`. -/
def CircuitDescription.component_by_id (d : CircuitDescription) (id : Nat) :
    Option Component :=
  alist_find d.components id

/-- `CircuitDescription::create_wire` (circuit_description.cpp lines
200-205): a fresh wire with id `m_wire_id++` and no pins yet. -/
def CircuitDescription.create_wire (d : CircuitDescription) :
    Wire × CircuitDescription :=
  let w : Wire := { id := d.wire_id, pins := [] }
  (w,
   { d with
       wire_id := (d.wire_id + 1) % 2 ^ 32,
       wires := (w.id, w) :: d.wires })

/-- `CircuitDescription::connect` (circuit_description.cpp lines
207-212): `create_wire` then `add_pin(pin_a); add_pin(pin_b)` through
the returned pointer, which mutates the stored wire. -/
def CircuitDescription.connect (d : CircuitDescription)
    (pin_a pin_b : Nat) : Wire × CircuitDescription :=
  let wd := d.create_wire
  let w := (wd.1.add_pin pin_a).add_pin pin_b
  (w, { wd.2 with wires := (w.id, w) :: (wd.2.wires.filter (fun kv => kv.1 ≠ w.id)) })

/-- Helper shared by the `add_*` functions: update a property of the
component just returned by `create_component`, both in the return value
and in the stored map (the C++ code mutates through one pointer). -/
def CircuitDescription.update_new_component (d : CircuitDescription)
    (comp : Component) (k : String) (v : PropValue) :
    Component × CircuitDescription :=
  let comp2 := comp.set_property k v
  (comp2,
   { d with components := (comp2.id, comp2) :: (d.components.filter (fun kv => kv.1 ≠ comp2.id)) })

/-- `CircuitDescription::add_constant` (circuit_description.cpp lines
228-232): a `COMPONENT_CONSTANT` with 0 inputs, 1 output, 0 controls
whose `value` property is set to the given value. -/
def CircuitDescription.add_constant (d : CircuitDescription) (value : Nat) :
    Component × CircuitDescription :=
  let cd := d.create_component .constant 0 1 0
  cd.2.update_new_component cd.1 "value" (.int (Int.ofNat value))

/-- `CircuitDescription::add_pull_resistor` (circuit_description.cpp
lines 234-238): a `COMPONENT_PULL_RESISTOR` whose `pull_to` property is
set to the given value. -/
def CircuitDescription.add_pull_resistor (d : CircuitDescription)
    (pull_to : Nat) : Component × CircuitDescription :=
  let cd := d.create_component .pull_resistor 0 1 0
  cd.2.update_new_component cd.1 "pull_to" (.int (Int.ofNat pull_to))

/-! ## Gate evaluation (spec-modelled) -/

/-- Modelled from the spec: the gate evaluation code (`gate.h` /
`gate.cpp`) is not part of the source snapshot; §4.3 asks for a
four-valued per-bit combination where a dominant FALSE short-circuits
an AND, ERROR dominates when not short-circuited, and UNDEFINED
propagates otherwise.  The ERROR code 3 is the fourth value of the
GUI's `value_labels` / `COLOR_CONNECTION` tables. -/
def VALUE_ERROR : Nat := 3

/-- Modelled from the spec (§4.3): two-input four-valued AND
combination with the FALSE-dominance (short-circuit) rule and ERROR
dominating UNDEFINED. -/
def and_combine (a b : Nat) : Nat :=
  if a = VALUE_FALSE ∨ b = VALUE_FALSE then VALUE_FALSE
  else if a = VALUE_ERROR ∨ b = VALUE_ERROR then VALUE_ERROR
  else if a = VALUE_UNDEFINED ∨ b = VALUE_UNDEFINED then VALUE_UNDEFINED
  else VALUE_TRUE

/-- Modelled from the spec (§4.3): an AND gate combines the values of
all its input pins, not just two. -/
def and_value (inputs : List Nat) : Nat :=
  inputs.foldl and_combine VALUE_TRUE

/-- A value representable in the four-valued domain. -/
def ValidValue (v : Nat) : Prop := v < 4

instance (v : Nat) : Decidable (ValidValue v) := by
  unfold ValidValue; infer_instance

/-! ## The buffer / NOT-gate pipeline (spec-modelled scheduler)

The runtime `Circuit` (circuit.h), the component `process` methods and
`simulation_until_pin_change` are not part of the source snapshot; the
end-to-end circuit of the logisim test (part 000) is modelled from the
spec: an input connector drives a buffer, the buffer drives a NOT gate,
the NOT gate drives an output connector, each stage reading the node
its input pin sits on.  The NOT stage uses `negate_value` from
basic.h; the buffer passes its input through unchanged (§4.3). -/

/-- One node value per stage of the pipeline: the input connector's
node, the buffer's output node, the NOT gate's output node (which is
the output connector's pin). -/
structure PipelineState where
  in_node : Nat
  buf_node : Nat
  not_node : Nat
deriving DecidableEq, Repr

/-- Modelled from the spec (§4.4): `Init` resets every pin value to
UNDEFINED. -/
def pipeline_init : PipelineState :=
  ⟨VALUE_UNDEFINED, VALUE_UNDEFINED, VALUE_UNDEFINED⟩

/-- Modelled from the spec (§4.4, §4.3): one simulation step
re-evaluates every component from the node values of the previous
pass — the input connector drives the externally written data, the
buffer copies its input node, the NOT gate negates its input node with
`negate_value`. -/
def pipeline_step (written : Nat) (s : PipelineState) : PipelineState :=
  ⟨written, s.in_node, negate_value s.buf_node⟩

/-- Modelled from the spec (§4.4): `run_until_pin_change` /
`simulation_until_pin_change` repeatedly steps until the observed pin
(the output connector's pin, i.e. the NOT gate's output node) differs
from its value at call time; the safety bound becomes explicit fuel,
`none` embeds the non-convergence report. -/
def pipeline_run_until_change (written : Nat) (fuel : Nat)
    (s : PipelineState) (orig : Nat) : Option PipelineState :=
  match fuel with
  | 0 => none
  | fuel + 1 =>
      let s2 := pipeline_step written s
      if s2.not_node = orig then pipeline_run_until_change written fuel s2 orig
      else some s2

/-! ## Pin connectivity (load_logisim.cpp + spec-modelled node resolver) -/

/-- Modelled from the spec (§4.1): the runtime node resolver
(`Circuit::connect_pins`) is not part of the source snapshot; the spec
mandates union-find over pin identifiers.  Connectivity is embedded as
the map from a pin to its node id; initially every pin is its own
singleton node. -/
def Connectivity := Nat → Nat

/-- Modelled from the spec (§4.1): `connect_pins(a, b)` unions the node
of `b` into the node of `a` — every pin whose node id equals `b`'s is
relabelled to `a`'s node id. -/
def connect_pins (c : Connectivity) (a b : Nat) : Connectivity :=
  fun p => if c p = c b then c a else c p

/-- The inner loop of `LogisimParser::connect_components`
(load_logisim.cpp lines 220-232): walk the points of one wire node,
remember the first point that has a pin (`pin_1`), and connect every
further pin found to it. -/
def wire_connect (pinLoc : Nat → Option Nat) (c : Connectivity)
    (pin1 : Option Nat) : List Nat → Connectivity
  | [] => c
  | pt :: rest =>
      match pinLoc pt with
      | none => wire_connect pinLoc c pin1 rest
      | some p =>
          match pin1 with
          | none => wire_connect pinLoc c (some p) rest
          | some p1 => wire_connect pinLoc (connect_pins c p1 p) (some p1) rest

/-- `LogisimParser::connect_components` (load_logisim.cpp lines
218-236): process every parsed wire node in turn. -/
def connect_components (pinLoc : Nat → Option Nat)
    (wires : List (List Nat)) (c : Connectivity) : Connectivity :=
  wires.foldl (fun acc node => wire_connect pinLoc acc none node) c

/-- The pins found on the points of one wire node (the successful
`m_pin_locs.find` results of the loop). -/
def foundPins (pinLoc : Nat → Option Nat) (pts : List Nat) : List Nat :=
  pts.filterMap pinLoc

/-! ## Theorems -/

/-- C1 (counterexample): the `Value` enum of basic.h declares exactly
three enumerators — FALSE, TRUE and UNDEFINED — so the program's logic
value domain does not contain four values, and no ERROR enumerator
(code 3) is declared. -/
theorem value_enum_declares_three_values :
    valueEnumerators = [VALUE_FALSE, VALUE_TRUE, VALUE_UNDEFINED] ∧
    valueEnumerators.length = 3 ∧
    3 ∉ valueEnumerators := by
  decide

/-- C1 (amended): the logic value domain declared by basic.h contains
exactly the three pairwise distinct values FALSE, TRUE and UNDEFINED,
and every value `negate_value` produces lies in that domain; ERROR
exists only GUI-side, as the fourth entry of the `value_labels`
combo-box table and of the `COLOR_CONNECTION` colour table, where its
colour is distinct from the UNDEFINED colour. -/
theorem value_domain_three_valued_with_gui_error :
    valueEnumerators = [VALUE_FALSE, VALUE_TRUE, VALUE_UNDEFINED] ∧
    VALUE_FALSE ≠ VALUE_TRUE ∧ VALUE_TRUE ≠ VALUE_UNDEFINED ∧
    VALUE_FALSE ≠ VALUE_UNDEFINED ∧
    (∀ n, negate_value n ∈ valueEnumerators) ∧
    value_labels = ["False", "True", "Undefined", "Error"] ∧
    value_labels.length = 4 ∧
    COLOR_CONNECTION.length = 4 ∧
    COLOR_CONNECTION_ERROR ≠ COLOR_CONNECTION_UNDEFINED := by
  refine ⟨by decide, by decide, by decide, by decide, ?_, rfl, rfl, by decide, by decide⟩
  intro n
  unfold negate_value
  split
  · decide
  · split
    · decide
    · decide

/-- C3 (counterexample): `negate_value` maps the ERROR code (3, the
fourth value of the GUI tables) to `VALUE_UNDEFINED`, not to itself, so
ERROR input does not yield ERROR output. -/
theorem negate_value_error_code_to_undefined :
    negate_value 3 = VALUE_UNDEFINED ∧ VALUE_UNDEFINED ≠ 3 := by
  decide

/-- C3 (amended): `negate_value` maps TRUE to FALSE, FALSE to TRUE and
every other value — UNDEFINED as well as the out-of-enum ERROR code —
to UNDEFINED. -/
theorem negate_value_semantics (n : Nat)
    (h1 : n ≠ VALUE_TRUE) (h0 : n ≠ VALUE_FALSE) :
    negate_value VALUE_TRUE = VALUE_FALSE ∧
    negate_value VALUE_FALSE = VALUE_TRUE ∧
    negate_value n = VALUE_UNDEFINED := by
  refine ⟨by decide, by decide, ?_⟩
  unfold negate_value
  rw [if_neg h1, if_neg h0]

/-- Witness for C3's amended theorem at the concrete input
`VALUE_UNDEFINED`. -/
theorem negate_value_semantics_witness :
    negate_value VALUE_TRUE = VALUE_FALSE ∧
    negate_value VALUE_FALSE = VALUE_TRUE ∧
    negate_value VALUE_UNDEFINED = VALUE_UNDEFINED :=
  negate_value_semantics VALUE_UNDEFINED (by decide) (by decide)

/-- C4: in the input-connector → buffer → NOT-gate → output-connector
pipeline, writing TRUE to the input and simulating until the output pin
changes yields FALSE at the output pin, and writing FALSE yields TRUE
(the fuel bound 1000 matches the test data's `simlimit`). -/
theorem pipeline_not_gate_inverts :
    (pipeline_run_until_change VALUE_TRUE 1000 pipeline_init
        pipeline_init.not_node).map PipelineState.not_node =
      some VALUE_FALSE ∧
    (pipeline_run_until_change VALUE_FALSE 1000 pipeline_init
        pipeline_init.not_node).map PipelineState.not_node =
      some VALUE_TRUE := by
  decide

/-- Combining with a FALSE accumulator stays FALSE. -/
lemma foldl_and_combine_false (l : List Nat) :
    l.foldl and_combine VALUE_FALSE = VALUE_FALSE := by
  induction l with
  | nil => rfl
  | cons x l ih =>
      have h : and_combine VALUE_FALSE x = VALUE_FALSE := by
        unfold and_combine
        rw [if_pos (Or.inl rfl)]
      simpa [h] using ih

/-- A FALSE input forces the fold to FALSE from any accumulator. -/
lemma foldl_and_combine_of_mem_false (l : List Nat) :
    ∀ a, VALUE_FALSE ∈ l → l.foldl and_combine a = VALUE_FALSE := by
  induction l with
  | nil => intro a h; cases h
  | cons x l ih =>
      intro a h
      rcases List.mem_cons.mp h with hx | hl
      · subst hx
        have h2 : and_combine a VALUE_FALSE = VALUE_FALSE := by
          unfold and_combine
          rw [if_pos (Or.inr rfl)]
        simp only [List.foldl_cons, h2]
        exact foldl_and_combine_false l
      · exact ih _ hl

/-- The two-input combination always lands in the four-valued domain. -/
lemma and_combine_valid (a b : Nat) : ValidValue (and_combine a b) := by
  unfold and_combine
  split
  · decide
  · split
    · decide
    · split
      · decide
      · decide

/-- The fold stays in the four-valued domain. -/
lemma foldl_and_combine_valid (l : List Nat) :
    ∀ a, ValidValue a → ValidValue (l.foldl and_combine a) := by
  induction l with
  | nil => intro a ha; simpa using ha
  | cons x l ih =>
      intro a _
      simpa using ih (and_combine a x) (and_combine_valid a x)

/-- On valid arguments the combination is TRUE exactly when both
arguments are TRUE. -/
lemma and_combine_eq_true_iff (a b : Nat)
    (ha : ValidValue a) (hb : ValidValue b) :
    and_combine a b = VALUE_TRUE ↔ a = VALUE_TRUE ∧ b = VALUE_TRUE := by
  unfold ValidValue at ha hb
  unfold and_combine VALUE_TRUE VALUE_FALSE VALUE_UNDEFINED VALUE_ERROR at *
  interval_cases a <;> interval_cases b <;> simp

/-- On valid inputs the fold is TRUE exactly when the accumulator and
every element are TRUE. -/
lemma foldl_and_combine_eq_true_iff (l : List Nat) :
    ∀ a, ValidValue a → (∀ v ∈ l, ValidValue v) →
      (l.foldl and_combine a = VALUE_TRUE ↔
        a = VALUE_TRUE ∧ ∀ v ∈ l, v = VALUE_TRUE) := by
  induction l with
  | nil => intro a _ _; simp
  | cons x l ih =>
      intro a ha hv
      have hx : ValidValue x := hv x (List.mem_cons_self x l)
      have hrest : ∀ v ∈ l, ValidValue v :=
        fun v hvl => hv v (List.mem_cons_of_mem x hvl)
      simp only [List.foldl_cons]
      rw [ih (and_combine a x) (and_combine_valid a x) hrest,
        and_combine_eq_true_iff a x ha hx]
      constructor
      · rintro ⟨⟨ha1, hx1⟩, hall⟩
        exact ⟨ha1, by
          intro v hvm
          rcases List.mem_cons.mp hvm with h | h
          · simpa [h] using hx1
          · exact hall v h⟩
      · rintro ⟨ha1, hall⟩
        exact ⟨⟨ha1, hall x (List.mem_cons_self x l)⟩,
          fun v hvl => hall v (List.mem_cons_of_mem x hvl)⟩

/-- A FALSE fold result can only come from a FALSE accumulator or a
FALSE element. -/
lemma foldl_and_combine_eq_false (l : List Nat) :
    ∀ a, l.foldl and_combine a = VALUE_FALSE →
      a = VALUE_FALSE ∨ VALUE_FALSE ∈ l := by
  induction l with
  | nil => intro a h; exact Or.inl h
  | cons x l ih =>
      intro a h
      simp only [List.foldl_cons] at h
      rcases ih (and_combine a x) h with hc | hm
      · unfold and_combine at hc
        by_cases h0 : a = VALUE_FALSE ∨ x = VALUE_FALSE
        · rcases h0 with h0 | h0
          · exact Or.inl h0
          · exact Or.inr (by simp [h0])
        · rw [if_neg h0] at hc
          exfalso
          revert hc
          split
          · decide
          · split <;> decide
      · exact Or.inr (List.mem_cons_of_mem x hm)

/-- C2: for an AND gate over `n ≥ 2` four-valued inputs, the combined
output is FALSE whenever some input is FALSE, is TRUE exactly when all
inputs are TRUE, and in every remaining combination is UNDEFINED or
ERROR. -/
theorem and_gate_semantics (inputs : List Nat)
    (hlen : 2 ≤ inputs.length) (hvalid : ∀ v ∈ inputs, ValidValue v) :
    (VALUE_FALSE ∈ inputs → and_value inputs = VALUE_FALSE) ∧
    (and_value inputs = VALUE_TRUE ↔ ∀ v ∈ inputs, v = VALUE_TRUE) ∧
    (VALUE_FALSE ∉ inputs → ¬(∀ v ∈ inputs, v = VALUE_TRUE) →
      and_value inputs = VALUE_UNDEFINED ∨ and_value inputs = VALUE_ERROR) := by
  unfold and_value
  have htrue := foldl_and_combine_eq_true_iff inputs VALUE_TRUE
    (by decide) hvalid
  refine ⟨fun hmem => foldl_and_combine_of_mem_false inputs VALUE_TRUE hmem,
    ?_, ?_⟩
  · rw [htrue]; simp
  · intro hnf hnt
    have hval : ValidValue (inputs.foldl and_combine VALUE_TRUE) :=
      foldl_and_combine_valid inputs VALUE_TRUE (by decide)
    have hne0 : inputs.foldl and_combine VALUE_TRUE ≠ VALUE_FALSE := by
      intro h
      rcases foldl_and_combine_eq_false inputs VALUE_TRUE h with h | h
      · exact absurd h (by decide)
      · exact hnf h
    have hne1 : inputs.foldl and_combine VALUE_TRUE ≠ VALUE_TRUE := by
      intro h
      exact hnt ((htrue.mp h).2)
    revert hval hne0 hne1
    unfold ValidValue VALUE_FALSE VALUE_TRUE VALUE_UNDEFINED VALUE_ERROR
    omega

/-- Witness for C2 at the concrete input list `[TRUE, UNDEFINED]`. -/
theorem and_gate_semantics_witness :
    2 ≤ ([VALUE_TRUE, VALUE_UNDEFINED] : List Nat).length ∧
    (∀ v ∈ ([VALUE_TRUE, VALUE_UNDEFINED] : List Nat), ValidValue v) ∧
    ((VALUE_FALSE ∈ ([VALUE_TRUE, VALUE_UNDEFINED] : List Nat) →
        and_value [VALUE_TRUE, VALUE_UNDEFINED] = VALUE_FALSE) ∧
      (and_value [VALUE_TRUE, VALUE_UNDEFINED] = VALUE_TRUE ↔
        ∀ v ∈ ([VALUE_TRUE, VALUE_UNDEFINED] : List Nat), v = VALUE_TRUE) ∧
      (VALUE_FALSE ∉ ([VALUE_TRUE, VALUE_UNDEFINED] : List Nat) →
        ¬(∀ v ∈ ([VALUE_TRUE, VALUE_UNDEFINED] : List Nat), v = VALUE_TRUE) →
        and_value [VALUE_TRUE, VALUE_UNDEFINED] = VALUE_UNDEFINED ∨
          and_value [VALUE_TRUE, VALUE_UNDEFINED] = VALUE_ERROR)) :=
  ⟨by decide, by decide,
    and_gate_semantics [VALUE_TRUE, VALUE_UNDEFINED] (by decide) (by decide)⟩

/-- Sanity: the spec-modelled AND combination reproduces the four
outcomes checked by the AND-gate test case of the repository's test
suite (the FALSE/FALSE, TRUE/TRUE, TRUE/FALSE and FALSE/TRUE
sections). -/
theorem and_gate_matches_test_suite :
    and_value [VALUE_FALSE, VALUE_FALSE] = VALUE_FALSE ∧
    and_value [VALUE_TRUE, VALUE_TRUE] = VALUE_TRUE ∧
    and_value [VALUE_TRUE, VALUE_FALSE] = VALUE_FALSE ∧
    and_value [VALUE_FALSE, VALUE_TRUE] = VALUE_FALSE := by
  decide

/-- Connecting two pins merges their nodes: both resolve to the first
pin's node id afterwards. -/
lemma connect_pins_eq (c : Connectivity) (a b : Nat) :
    connect_pins c a b a = connect_pins c a b b := by
  unfold connect_pins
  by_cases h : c a = c b <;> simp [h]

/-- Connecting pins never separates pins that already share a node. -/
lemma connect_pins_preserves (c : Connectivity) (a b x y : Nat)
    (h : c x = c y) : connect_pins c a b x = connect_pins c a b y := by
  unfold connect_pins
  rw [h]

/-- Processing the remaining points of a wire node (with the first
found pin already fixed) keeps existing node-sharing intact and puts
every further found pin in the first pin's node. -/
lemma wire_connect_some (pinLoc : Nat → Option Nat) (pts : List Nat) :
    ∀ (c : Connectivity) (p1 : Nat),
      (∀ x y, c x = c y →
        wire_connect pinLoc c (some p1) pts x =
          wire_connect pinLoc c (some p1) pts y) ∧
      (∀ q ∈ foundPins pinLoc pts,
        wire_connect pinLoc c (some p1) pts q =
          wire_connect pinLoc c (some p1) pts p1) := by
  induction pts with
  | nil =>
      intro c p1
      refine ⟨fun x y h => h, ?_⟩
      intro q hq
      simp [foundPins] at hq
  | cons pt rest ih =>
      intro c p1
      cases hpt : pinLoc pt with
      | none =>
          have hfound : foundPins pinLoc (pt :: rest) = foundPins pinLoc rest := by
            simp [foundPins, hpt]
          refine ⟨?_, ?_⟩
          · intro x y h
            simpa [wire_connect, hpt] using (ih c p1).1 x y h
          · intro q hq
            rw [hfound] at hq
            simpa [wire_connect, hpt] using (ih c p1).2 q hq
      | some p =>
          have hfound : foundPins pinLoc (pt :: rest) =
              p :: foundPins pinLoc rest := by
            simp [foundPins, hpt]
          have step : ∀ z, wire_connect pinLoc c (some p1) (pt :: rest) z =
              wire_connect pinLoc (connect_pins c p1 p) (some p1) rest z := by
            intro z
            simp [wire_connect, hpt]
          refine ⟨?_, ?_⟩
          · intro x y h
            rw [step x, step y]
            exact (ih (connect_pins c p1 p) p1).1 x y
              (connect_pins_preserves c p1 p x y h)
          · intro q hq
            rw [hfound] at hq
            rw [step q, step p1]
            rcases List.mem_cons.mp hq with hq | hq
            · rw [hq]
              exact (ih (connect_pins c p1 p) p1).1 p p1
                (connect_pins_eq c p1 p).symm
            · exact (ih (connect_pins c p1 p) p1).2 q hq

/-- Processing one whole wire node keeps existing node-sharing intact
and unifies the nodes of all pins found on its points. -/
lemma wire_connect_none (pinLoc : Nat → Option Nat) (pts : List Nat) :
    ∀ (c : Connectivity),
      (∀ x y, c x = c y →
        wire_connect pinLoc c none pts x = wire_connect pinLoc c none pts y) ∧
      (∀ q ∈ foundPins pinLoc pts, ∀ r ∈ foundPins pinLoc pts,
        wire_connect pinLoc c none pts q = wire_connect pinLoc c none pts r) := by
  induction pts with
  | nil =>
      intro c
      refine ⟨fun x y h => h, ?_⟩
      intro q hq
      simp [foundPins] at hq
  | cons pt rest ih =>
      intro c
      cases hpt : pinLoc pt with
      | none =>
          have hfound : foundPins pinLoc (pt :: rest) = foundPins pinLoc rest := by
            simp [foundPins, hpt]
          refine ⟨?_, ?_⟩
          · intro x y h
            simpa [wire_connect, hpt] using (ih c).1 x y h
          · intro q hq r hr
            rw [hfound] at hq hr
            simpa [wire_connect, hpt] using (ih c).2 q hq r hr
      | some p =>
          have hfound : foundPins pinLoc (pt :: rest) =
              p :: foundPins pinLoc rest := by
            simp [foundPins, hpt]
          have step : ∀ z, wire_connect pinLoc c none (pt :: rest) z =
              wire_connect pinLoc c (some p) rest z := by
            intro z
            simp [wire_connect, hpt]
          have hs := wire_connect_some pinLoc rest c p
          refine ⟨?_, ?_⟩
          · intro x y h
            rw [step x, step y]
            exact hs.1 x y h
          · intro q hq r hr
            rw [hfound] at hq hr
            rw [step q, step r]
            have hone : ∀ z, z ∈ foundPins pinLoc rest ∨ z = p →
                wire_connect pinLoc c (some p) rest z =
                  wire_connect pinLoc c (some p) rest p := by
              intro z hz
              rcases hz with hz | hz
              · exact hs.2 z hz
              · rw [hz]
            have hq2 : q ∈ foundPins pinLoc rest ∨ q = p := by
              rcases List.mem_cons.mp hq with h | h
              exacts [Or.inr h, Or.inl h]
            have hr2 : r ∈ foundPins pinLoc rest ∨ r = p := by
              rcases List.mem_cons.mp hr with h | h
              exacts [Or.inr h, Or.inl h]
            rw [hone q hq2, hone r hr2]

/-- Folding `connect_components` over further wires keeps existing
node-sharing intact. -/
lemma connect_components_preserves (pinLoc : Nat → Option Nat)
    (wires : List (List Nat)) :
    ∀ (c : Connectivity) (x y : Nat), c x = c y →
      connect_components pinLoc wires c x = connect_components pinLoc wires c y := by
  induction wires with
  | nil => intro c x y h; exact h
  | cons w rest ih =>
      intro c x y h
      have hstep := (wire_connect_none pinLoc w c).1 x y h
      simpa [connect_components, List.foldl_cons] using
        (by
          have := ih (wire_connect pinLoc c none w) x y hstep
          simpa [connect_components] using this)

/-- C5: after `connect_components` runs over the parsed wires starting
from the fresh all-singleton connectivity, any two pins found on the
points of one wire resolve to the same node id. -/
theorem wire_pins_resolve_to_same_node (pinLoc : Nat → Option Nat)
    (wires : List (List Nat)) (w : List Nat) (hw : w ∈ wires)
    (p q : Nat) (hp : p ∈ foundPins pinLoc w) (hq : q ∈ foundPins pinLoc w) :
    connect_components pinLoc wires (fun pin => pin) p =
      connect_components pinLoc wires (fun pin => pin) q := by
  rcases List.append_of_mem hw with ⟨pre, post, rfl⟩
  have hsplit : ∀ z, connect_components pinLoc (pre ++ w :: post)
      (fun pin => pin) z =
      connect_components pinLoc post
        (wire_connect pinLoc
          (connect_components pinLoc pre (fun pin => pin)) none w) z := by
    intro z
    simp [connect_components, List.foldl_append]
  rw [hsplit p, hsplit q]
  exact connect_components_preserves pinLoc post _ p q
    ((wire_connect_none pinLoc w
      (connect_components pinLoc pre (fun pin => pin))).2 p hp q hq)

/-- Witness for C5 on a concrete two-point wire whose ends hold pins
100 and 200. -/
theorem wire_pins_resolve_to_same_node_witness :
    [10, 20] ∈ [[10, 20]] ∧
    (100 ∈ foundPins
      (fun pt => if pt = 10 then some 100 else if pt = 20 then some 200 else none)
      [10, 20]) ∧
    (200 ∈ foundPins
      (fun pt => if pt = 10 then some 100 else if pt = 20 then some 200 else none)
      [10, 20]) ∧
    connect_components
        (fun pt => if pt = 10 then some 100 else if pt = 20 then some 200 else none)
        [[10, 20]] (fun pin => pin) 100 =
      connect_components
        (fun pt => if pt = 10 then some 100 else if pt = 20 then some 200 else none)
        [[10, 20]] (fun pin => pin) 200 :=
  ⟨by decide, by decide, by decide,
    wire_pins_resolve_to_same_node _ [[10, 20]] [10, 20] (by decide)
      100 200 (by decide) (by decide)⟩

/-- Decoding a packed pin id recovers the component id and the local
index, provided both fit in 32 bits. -/
lemma pin_id_decode (c : Component) (i : Nat)
    (hc : c.id < 2 ^ 32) (hi : i < 2 ^ 32) :
    component_id_from_pin_id (c.pin_id i) = c.id ∧
    pin_index_from_pin_id (c.pin_id i) = i := by
  unfold component_id_from_pin_id pin_index_from_pin_id Component.pin_id
  rw [Nat.mod_eq_of_lt hc, Nat.mod_eq_of_lt hi, Nat.mul_comm]
  constructor
  · rw [Nat.mul_add_div (by positivity), Nat.div_eq_of_lt hi,
      Nat.add_zero, Nat.mod_eq_of_lt hc]
  · rw [Nat.mul_add_mod, Nat.mod_eq_of_lt hi]

/-- Within one component, pin ids are injective in the local index as
long as the index fits in 32 bits. -/
lemma pin_id_inj_index (c : Component) (a b : Nat)
    (ha : a < 2 ^ 32) (hb : b < 2 ^ 32) (h : c.pin_id a = c.pin_id b) :
    a = b := by
  unfold Component.pin_id at h
  have h2 : a % 2 ^ 32 = b % 2 ^ 32 := Nat.add_left_cancel h
  omega

/-- C6 (amended): for a component id and a valid local pin index that
fits in 32 bits, the packed pin id round-trips exactly through
`component_id_from_pin_id` and `pin_index_from_pin_id`, and the packing
is injective over such pairs. -/
theorem pin_id_roundtrip (c : Component) (i : Nat)
    (hc : c.id < 2 ^ 32) (hvalid : i < c.total_pins) (hi : i < 2 ^ 32) :
    component_id_from_pin_id (c.pin_id i) = c.id ∧
    pin_index_from_pin_id (c.pin_id i) = i ∧
    (∀ c2 : Component, ∀ j : Nat, c2.id < 2 ^ 32 → j < 2 ^ 32 →
      c.pin_id i = c2.pin_id j → c.id = c2.id ∧ i = j) := by
  refine ⟨(pin_id_decode c i hc hi).1, (pin_id_decode c i hc hi).2, ?_⟩
  intro c2 j hc2 hj h
  have h1 := congrArg component_id_from_pin_id h
  have h2 := congrArg pin_index_from_pin_id h
  rw [(pin_id_decode c i hc hi).1, (pin_id_decode c2 j hc2 hj).1] at h1
  rw [(pin_id_decode c i hc hi).2, (pin_id_decode c2 j hc2 hj).2] at h2
  exact ⟨h1, h2⟩

/-- Witness for C6's amended theorem on a freshly created two-input
AND gate at pin index 1. -/
theorem pin_id_roundtrip_witness :
    ((CircuitDescription.mk_empty "t").create_component .and_gate 2 1 0).1.id
        < 2 ^ 32 ∧
    1 < ((CircuitDescription.mk_empty "t").create_component
        .and_gate 2 1 0).1.total_pins ∧
    (1 : Nat) < 2 ^ 32 ∧
    (component_id_from_pin_id
        (((CircuitDescription.mk_empty "t").create_component
          .and_gate 2 1 0).1.pin_id 1) =
      ((CircuitDescription.mk_empty "t").create_component
        .and_gate 2 1 0).1.id ∧
     pin_index_from_pin_id
        (((CircuitDescription.mk_empty "t").create_component
          .and_gate 2 1 0).1.pin_id 1) = 1 ∧
     (∀ c2 : Component, ∀ j : Nat, c2.id < 2 ^ 32 → j < 2 ^ 32 →
        ((CircuitDescription.mk_empty "t").create_component
          .and_gate 2 1 0).1.pin_id 1 = c2.pin_id j →
        ((CircuitDescription.mk_empty "t").create_component
          .and_gate 2 1 0).1.id = c2.id ∧ 1 = j)) :=
  ⟨by decide, by decide, by decide,
    pin_id_roundtrip _ 1 (by decide) (by decide) (by decide)⟩

/-- C6 (counterexample): on a component created with `2^32 + 1` input
pins, the valid pin indices `2^32` and `0` pack to the same pin id, so
the encoding is not injective over all valid indices and
`pin_index_from_pin_id` does not recover `2^32`. -/
theorem pin_id_truncates_index_2pow32 :
    (((CircuitDescription.mk_empty "t").create_component
        .and_gate (2 ^ 32 + 1) 1 0).1.pin_id (2 ^ 32) =
      ((CircuitDescription.mk_empty "t").create_component
        .and_gate (2 ^ 32 + 1) 1 0).1.pin_id 0) ∧
    2 ^ 32 < ((CircuitDescription.mk_empty "t").create_component
        .and_gate (2 ^ 32 + 1) 1 0).1.total_pins ∧
    pin_index_from_pin_id
        (((CircuitDescription.mk_empty "t").create_component
          .and_gate (2 ^ 32 + 1) 1 0).1.pin_id (2 ^ 32)) = 0 ∧
    (2 ^ 32 : Nat) ≠ 0 := by
  refine ⟨?_, ?_, ?_, by positivity⟩
  · show (0 % 2 ^ 32) * 2 ^ 32 + 2 ^ 32 % 2 ^ 32 =
      (0 % 2 ^ 32) * 2 ^ 32 + 0 % 2 ^ 32
    simp
  · show 2 ^ 32 < 2 ^ 32 + 1 + 1 + 0
    omega
  · show ((0 % 2 ^ 32) * 2 ^ 32 + 2 ^ 32 % 2 ^ 32) % 2 ^ 32 = 0
    simp

/-- C7 (amended): for a component whose total pin count fits in 32
bits, the local index space is partitioned as input indices, then
output indices, then control indices; the three pin-id families agree
with `pin_id` on those offsets, are pairwise disjoint, together cover
every valid local index, and the three pin counts are untouched by the
component's mutating operations. -/
theorem pin_families_partition (c : Component)
    (htot : c.total_pins ≤ 2 ^ 32) :
    (∀ i, i < c.inputs → c.input_pin_id i = c.pin_id i) ∧
    (∀ j, j < c.outputs → c.output_pin_id j = c.pin_id (c.inputs + j)) ∧
    (∀ k, k < c.controls →
      c.control_pin_id k = c.pin_id (c.inputs + c.outputs + k)) ∧
    (∀ i j, i < c.inputs → j < c.outputs →
      c.input_pin_id i ≠ c.output_pin_id j) ∧
    (∀ i k, i < c.inputs → k < c.controls →
      c.input_pin_id i ≠ c.control_pin_id k) ∧
    (∀ j k, j < c.outputs → k < c.controls →
      c.output_pin_id j ≠ c.control_pin_id k) ∧
    (∀ m, m < c.total_pins →
      (m < c.inputs ∧ c.pin_id m = c.input_pin_id m) ∨
      (c.inputs ≤ m ∧ m < c.inputs + c.outputs ∧
        c.pin_id m = c.output_pin_id (m - c.inputs)) ∨
      (c.inputs + c.outputs ≤ m ∧
        c.pin_id m = c.control_pin_id (m - c.inputs - c.outputs))) ∧
    (∀ k v, (c.add_property k v).inputs = c.inputs ∧
      (c.add_property k v).outputs = c.outputs ∧
      (c.add_property k v).controls = c.controls) ∧
    (∀ k v, (c.set_property k v).inputs = c.inputs ∧
      (c.set_property k v).outputs = c.outputs ∧
      (c.set_property k v).controls = c.controls) ∧
    (∀ pos ang, (c.set_position pos).inputs = c.inputs ∧
      (c.set_angle ang).inputs = c.inputs ∧
      (c.set_position pos).outputs = c.outputs ∧
      (c.set_angle ang).outputs = c.outputs ∧
      (c.set_position pos).controls = c.controls ∧
      (c.set_angle ang).controls = c.controls) := by
  unfold Component.total_pins at htot
  have hinj : ∀ a b, a < c.total_pins → b < c.total_pins → a ≠ b →
      c.pin_id a ≠ c.pin_id b := by
    intro a b ha hb hne h
    unfold Component.total_pins at ha hb
    exact hne (pin_id_inj_index c a b (by omega) (by omega) h)
  refine ⟨fun i _ => rfl, fun j _ => rfl, fun k _ => rfl, ?_, ?_, ?_, ?_,
    fun k v => ⟨rfl, rfl, rfl⟩, fun k v => ⟨rfl, rfl, rfl⟩,
    fun pos ang => ⟨rfl, rfl, rfl, rfl, rfl, rfl⟩⟩
  · intro i j hi hj
    exact hinj i (c.inputs + j)
      (by unfold Component.total_pins; omega)
      (by unfold Component.total_pins; omega) (by omega)
  · intro i k hi hk
    exact hinj i (c.inputs + c.outputs + k)
      (by unfold Component.total_pins; omega)
      (by unfold Component.total_pins; omega) (by omega)
  · intro j k hj hk
    exact hinj (c.inputs + j) (c.inputs + c.outputs + k)
      (by unfold Component.total_pins; omega)
      (by unfold Component.total_pins; omega) (by omega)
  · intro m hm
    unfold Component.total_pins at hm
    by_cases h1 : m < c.inputs
    · exact Or.inl ⟨h1, rfl⟩
    · by_cases h2 : m < c.inputs + c.outputs
      · refine Or.inr (Or.inl ⟨by omega, h2, ?_⟩)
        unfold Component.output_pin_id
        congr 1
        omega
      · refine Or.inr (Or.inr ⟨by omega, ?_⟩)
        unfold Component.control_pin_id
        congr 1
        omega

/-- Witness for C7's amended theorem on a freshly created tri-state
buffer (1 input, 1 output, 1 control pin). -/
theorem pin_families_partition_witness :
    ((CircuitDescription.mk_empty "t").create_component
        .tristate_buffer 1 1 1).1.total_pins ≤ 2 ^ 32 ∧
    (∀ i j, i < ((CircuitDescription.mk_empty "t").create_component
          .tristate_buffer 1 1 1).1.inputs →
      j < ((CircuitDescription.mk_empty "t").create_component
          .tristate_buffer 1 1 1).1.outputs →
      ((CircuitDescription.mk_empty "t").create_component
          .tristate_buffer 1 1 1).1.input_pin_id i ≠
        ((CircuitDescription.mk_empty "t").create_component
          .tristate_buffer 1 1 1).1.output_pin_id j) :=
  ⟨by decide,
    (pin_families_partition
      ((CircuitDescription.mk_empty "t").create_component
        .tristate_buffer 1 1 1).1 (by decide)).2.2.2.1⟩

/-- C7 (counterexample): on a component created with `2^32` input pins
and one output pin, the first output pin id equals the first input pin
id, so the input and output pin-id families are not disjoint. -/
theorem pin_families_collide_at_2pow32 :
    (((CircuitDescription.mk_empty "t").create_component
        .and_gate (2 ^ 32) 1 0).1.output_pin_id 0 =
      ((CircuitDescription.mk_empty "t").create_component
        .and_gate (2 ^ 32) 1 0).1.input_pin_id 0) ∧
    0 < ((CircuitDescription.mk_empty "t").create_component
        .and_gate (2 ^ 32) 1 0).1.inputs ∧
    0 < ((CircuitDescription.mk_empty "t").create_component
        .and_gate (2 ^ 32) 1 0).1.outputs := by
  refine ⟨?_, by decide, by decide⟩
  show (0 % 2 ^ 32) * 2 ^ 32 + (2 ^ 32 + 0) % 2 ^ 32 =
    (0 % 2 ^ 32) * 2 ^ 32 + 0 % 2 ^ 32
  simp

/-- Map lookup at the key just inserted. -/
lemma alist_find_cons_self (m : List (Nat × α)) (k : Nat) (v : α) :
    alist_find ((k, v) :: m) k = some v := by
  simp [alist_find]

/-- Map lookup at a different key skips the newest binding. -/
lemma alist_find_cons_ne (m : List (Nat × α)) (k k0 : Nat) (v : α)
    (h : k ≠ k0) : alist_find ((k0, v) :: m) k = alist_find m k := by
  simp [alist_find, List.find?_cons_of_neg, Ne.symm h]

/-- When every stored key is below a bound, lookup at or above the
bound fails. -/
lemma alist_find_none_of_keys_lt (m : List (Nat × α)) (n k : Nat)
    (hkeys : ∀ kv ∈ m, kv.1 < n) (hk : n ≤ k) : alist_find m k = none := by
  unfold alist_find
  rw [List.find?_eq_none.mpr]
  · rfl
  · intro kv hkv
    have := hkeys kv hkv
    simp only [decide_eq_true_eq]
    omega

/-- Dropping the bindings of one key leaves lookups at other keys
unchanged. -/
lemma alist_find_filter_ne (m : List (Nat × α)) (k j : Nat) (h : k ≠ j) :
    alist_find (m.filter (fun kv => kv.1 ≠ j)) k = alist_find m k := by
  induction m with
  | nil => rfl
  | cons kv m ih =>
      by_cases hj : kv.1 = j
      · have hk : kv.1 ≠ k := by omega
        rw [List.filter_cons_of_neg (by simp [hj]), ih]
        cases kv with
        | mk k1 v1 => exact (alist_find_cons_ne m k k1 v1 (by simpa using (Ne.symm hk))).symm
      · rw [List.filter_cons_of_pos (by simp [hj])]
        cases kv with
        | mk k1 v1 =>
            by_cases hk : k1 = k
            · subst hk
              rw [alist_find_cons_self, alist_find_cons_self]
            · rw [alist_find_cons_ne m k k1 v1 (Ne.symm hk),
                alist_find_cons_ne _ k k1 v1 (Ne.symm hk), ih]

/-- C8: on a description whose stored wire ids are all below the wire
id counter, `connect(a, b)` returns a wire with a fresh id whose pin
set is exactly `[a, b]`, stores it, and leaves every existing
component and every other wire binding untouched. -/
theorem connect_creates_fresh_two_pin_wire (d : CircuitDescription)
    (a b : Nat) (hwf : ∀ kv ∈ d.wires, kv.1 < d.wire_id) :
    (d.connect a b).1.id = d.wire_id ∧
    alist_find d.wires (d.connect a b).1.id = none ∧
    (d.connect a b).1.pins = [a, b] ∧
    (d.connect a b).1.num_pins = 2 ∧
    (d.connect a b).2.components = d.components ∧
    (d.connect a b).2.name = d.name ∧
    (d.connect a b).2.component_id = d.component_id ∧
    alist_find (d.connect a b).2.wires (d.connect a b).1.id =
      some (d.connect a b).1 ∧
    (∀ k, k ≠ (d.connect a b).1.id →
      alist_find (d.connect a b).2.wires k = alist_find d.wires k) := by
  refine ⟨rfl, ?_, rfl, rfl, rfl, rfl, rfl, ?_, ?_⟩
  · exact alist_find_none_of_keys_lt d.wires d.wire_id d.wire_id hwf
      (Nat.le_refl _)
  · exact alist_find_cons_self _ _ _
  · intro k hk
    show alist_find ((d.wire_id, _) ::
      ((d.wire_id, Wire.mk d.wire_id []) :: d.wires).filter
        (fun kv => kv.1 ≠ d.wire_id)) k = alist_find d.wires k
    rw [alist_find_cons_ne _ k d.wire_id _ hk,
      alist_find_filter_ne _ k d.wire_id hk,
      alist_find_cons_ne _ k d.wire_id _ hk]

/-- Witness for C8 on the empty description. -/
theorem connect_creates_fresh_two_pin_wire_witness :
    (∀ kv ∈ (CircuitDescription.mk_empty "t").wires,
      kv.1 < (CircuitDescription.mk_empty "t").wire_id) ∧
    ((CircuitDescription.mk_empty "t").connect 7 9).1.pins = [7, 9] ∧
    ((CircuitDescription.mk_empty "t").connect 7 9).1.num_pins = 2 ∧
    ((CircuitDescription.mk_empty "t").connect 7 9).2.components =
      (CircuitDescription.mk_empty "t").components :=
  ⟨by decide,
    (connect_creates_fresh_two_pin_wire (CircuitDescription.mk_empty "t")
      7 9 (by decide)).2.2.1,
    (connect_creates_fresh_two_pin_wire (CircuitDescription.mk_empty "t")
      7 9 (by decide)).2.2.2.1,
    (connect_creates_fresh_two_pin_wire (CircuitDescription.mk_empty "t")
      7 9 (by decide)).2.2.2.2.1⟩

/-- C9: the component returned by `add_constant(v)` carries `value = v`
and the one returned by `add_pull_resistor(v)` carries `pull_to = v`;
reading the property through `property_value` returns the configured
value whatever default is supplied, and the stored map holds the same
component. -/
theorem configured_value_properties (d : CircuitDescription) (v : Nat)
    (dflt : Int) :
    (d.add_constant v).1.property "value" = some (.int (Int.ofNat v)) ∧
    (d.add_constant v).1.property_value_int "value" dflt = Int.ofNat v ∧
    (d.add_pull_resistor v).1.property "pull_to" =
      some (.int (Int.ofNat v)) ∧
    (d.add_pull_resistor v).1.property_value_int "pull_to" dflt =
      Int.ofNat v ∧
    (d.add_constant v).2.component_by_id (d.add_constant v).1.id =
      some (d.add_constant v).1 ∧
    (d.add_pull_resistor v).2.component_by_id (d.add_pull_resistor v).1.id =
      some (d.add_pull_resistor v).1 := by
  refine ⟨rfl, rfl, rfl, rfl, ?_, ?_⟩ <;>
    exact alist_find_cons_self _ _ _

/-- C10: on a description whose stored component ids are all below the
component id counter (with headroom in the 32-bit id space),
`create_component` assigns the counter as the fresh id — an id no
existing component holds — stores the new component there, leaves every
other id's lookup unchanged, increments the counter by exactly one, and
re-establishes the id invariant. -/
theorem create_component_assigns_fresh_id (d : CircuitDescription)
    (ty : ComponentType) (ni no nc : Nat)
    (hwf : ∀ kv ∈ d.components, kv.1 < d.component_id)
    (hcap : d.component_id + 1 < 2 ^ 32) :
    (d.create_component ty ni no nc).1.id = d.component_id ∧
    d.component_by_id (d.create_component ty ni no nc).1.id = none ∧
    (∀ k, d.component_id ≤ k → d.component_by_id k = none) ∧
    (d.create_component ty ni no nc).2.component_by_id
        (d.create_component ty ni no nc).1.id =
      some (d.create_component ty ni no nc).1 ∧
    (∀ k, k ≠ (d.create_component ty ni no nc).1.id →
      (d.create_component ty ni no nc).2.component_by_id k =
        d.component_by_id k) ∧
    (d.create_component ty ni no nc).2.component_id = d.component_id + 1 ∧
    (∀ kv ∈ (d.create_component ty ni no nc).2.components,
      kv.1 < (d.create_component ty ni no nc).2.component_id) := by
  have hmod : (d.component_id + 1) % 2 ^ 32 = d.component_id + 1 :=
    Nat.mod_eq_of_lt hcap
  refine ⟨rfl, ?_, ?_, ?_, ?_, hmod, ?_⟩
  · exact alist_find_none_of_keys_lt d.components d.component_id
      d.component_id hwf (Nat.le_refl _)
  · intro k hk
    exact alist_find_none_of_keys_lt d.components d.component_id k hwf hk
  · exact alist_find_cons_self _ _ _
  · intro k hk
    exact alist_find_cons_ne _ k d.component_id _ hk
  · intro kv hkv
    show kv.1 < (d.component_id + 1) % 2 ^ 32
    rw [hmod]
    rcases List.mem_cons.mp hkv with h | h
    · subst h; simp
    · exact Nat.lt_succ_of_lt (hwf kv h)

/-- Witness for C10 on the empty description. -/
theorem create_component_assigns_fresh_id_witness :
    (∀ kv ∈ (CircuitDescription.mk_empty "t").components,
      kv.1 < (CircuitDescription.mk_empty "t").component_id) ∧
    (CircuitDescription.mk_empty "t").component_id + 1 < 2 ^ 32 ∧
    ((CircuitDescription.mk_empty "t").create_component
        .not_gate 1 1 0).1.id = (CircuitDescription.mk_empty "t").component_id ∧
    ((CircuitDescription.mk_empty "t").create_component
        .not_gate 1 1 0).2.component_id =
      (CircuitDescription.mk_empty "t").component_id + 1 :=
  ⟨by decide, by decide,
    (create_component_assigns_fresh_id (CircuitDescription.mk_empty "t")
      .not_gate 1 1 0 (by decide) (by decide)).1,
    (create_component_assigns_fresh_id (CircuitDescription.mk_empty "t")
      .not_gate 1 1 0 (by decide) (by decide)).2.2.2.2.2.1⟩

end LSim
